import Mathlib

/-!
Shallow embedding of the temporal matching and calendar-aware aggregation
engine of the analysis_sudo repository (src/check.py, src/graph.py).

Machine conventions of the embedding:
* `Time` and `Date` are records of `Nat` fields; comparisons are the
  lexicographic orders Python's `datetime.time` / `datetime.date` use.
* `parse_time_str` / `parse_date_str` transcribe the behaviour of
  `datetime.strptime` with the formats used in the source: each `%H`/`%M`/`%S`/
  `%m`/`%d` directive consumes one or two digit characters, `%Y` exactly four,
  the whole string must be consumed, and the resulting field values must pass
  the range checks of the `time`/`date` constructors (hour 0-23,
  minute/second 0-59, month 1-12, day 1-daysInMonth, year at least 1).
* the national holiday calendar (the `jpholiday` library) is an external
  collaborator; it is modelled as a parameter `hol : Date → Bool`.
* pandas behaviours are transcribed where the source relies on them:
  comparing an object column against a scalar treats missing values as
  `False` under `>`, and `sort_values` places missing keys last.
-/

set_option maxHeartbeats 1000000

namespace AnalysisSudo

/-- Numeric value of a decimal digit character. -/
def digitVal (c : Char) : Nat := c.toNat - 48

/-- Component matched by a two-digit strptime directive (`%H`, `%M`, `%S`,
`%m`, `%d`): one or two digit characters, fully consumed.  A component of any
other shape makes the whole strptime call raise `ValueError`, which the source
catches and turns into `None`. -/
def parseComp : List Char → Option Nat
  | [c] => if c.isDigit then some (digitVal c) else none
  | [c1, c2] =>
    if c1.isDigit && c2.isDigit then some (10 * digitVal c1 + digitVal c2)
    else none
  | _ => none

/-- Component matched by strptime `%Y`: exactly four digit characters. -/
def parseComp4 : List Char → Option Nat
  | [c1, c2, c3, c4] =>
    if c1.isDigit && c2.isDigit && c3.isDigit && c4.isDigit then
      some (1000 * digitVal c1 + 100 * digitVal c2 + 10 * digitVal c3 + digitVal c4)
    else none
  | _ => none

/-- Split a character list at every occurrence of `sep` (the separators are not
kept).  The result always has one more part than there are separators, so the
number of parts mirrors the source's `time_str.count(':')` dispatch. -/
def splitOnChar (sep : Char) : List Char → List (List Char)
  | [] => [[]]
  | c :: cs =>
    if c = sep then [] :: splitOnChar sep cs
    else
      match splitOnChar sep cs with
      | [] => [[c]]
      | p :: ps => (c :: p) :: ps

/-- Time of day, the embedding of Python `datetime.time` values produced by the
source (hour/minute/second; the source never produces microseconds). -/
structure Time where
  hour : Nat
  minute : Nat
  second : Nat
deriving DecidableEq, Repr

/-- Strict comparison of times, lexicographic on (hour, minute, second): the
order Python `datetime.time` values are compared with. -/
def timeLtB (a b : Time) : Bool :=
  decide (a.hour < b.hour) ||
    (a.hour == b.hour && (decide (a.minute < b.minute) ||
      (a.minute == b.minute && decide (a.second < b.second))))

/-- Non-strict time comparison (total order companion of `timeLtB`). -/
def timeLeB (a b : Time) : Bool := !(timeLtB b a)

/-- Embedding of `parse_time_str` (src/check.py lines 29-45, src/graph.py lines
29-46) applied to an actual string: dispatch on the colon count (1 → `%H:%M`,
2 → `%H:%M:%S`, anything else → `None`); a `ValueError` from `strptime` or the
`time` constructor is caught and becomes `None`. -/
def parse_time_str (s : String) : Option Time :=
  match splitOnChar ':' s.data with
  | [hc, mc] =>
    match parseComp hc, parseComp mc with
    | some hv, some mv =>
      if hv ≤ 23 ∧ mv ≤ 59 then some ⟨hv, mv, 0⟩ else none
    | _, _ => none
  | [hc, mc, sc] =>
    match parseComp hc, parseComp mc, parseComp sc with
    | some hv, some mv, some sv =>
      if hv ≤ 23 ∧ mv ≤ 59 ∧ sv ≤ 59 then some ⟨hv, mv, sv⟩ else none
    | _, _, _ => none
  | _ => none

/-- Embedding of `parse_time_str` applied to a CSV cell that may carry the
missing-value marker: the `pd.isna` guard at the top of the source function
returns `None` before any string handling. -/
def parse_time_cell : Option String → Option Time
  | none => none
  | some s => parse_time_str s

/-- Decimal digit character for a value 0-9. -/
def digitChar (d : Nat) : Char := Char.ofNat (48 + d)

/-- Two-digit zero-padded decimal rendering (for values up to 99). -/
def fmt2 (n : Nat) : String := ⟨[digitChar (n / 10), digitChar (n % 10)]⟩

/-- Four-digit zero-padded decimal rendering (for values up to 9999). -/
def fmt4 (n : Nat) : String :=
  ⟨[digitChar (n / 1000), digitChar (n / 100 % 10), digitChar (n / 10 % 10),
    digitChar (n % 10)]⟩

/-- Modelled from the spec: the repository never formats a `TimeOfDay` back to
text (it carries the original strings through), but the spec's round-trip
property needs the canonical textual form `HH:MM:SS` of a parsed time (what
Python `str(time(...))` prints).  This renders exactly that form. -/
def formatTime (t : Time) : String :=
  fmt2 t.hour ++ ":" ++ fmt2 t.minute ++ ":" ++ fmt2 t.second

/-- Calendar date, the embedding of Python `datetime.date` (proleptic
Gregorian, year at least 1). -/
structure Date where
  year : Nat
  month : Nat
  day : Nat
deriving DecidableEq, Repr

/-- Gregorian leap-year rule. -/
def isLeap (y : Nat) : Bool := (y % 4 == 0 && y % 100 != 0) || y % 400 == 0

/-- Length of month `m` (1-based) of year `y`. -/
def daysInMonth (y m : Nat) : Nat :=
  if m = 2 then (if isLeap y then 29 else 28)
  else if m = 4 ∨ m = 6 ∨ m = 9 ∨ m = 11 then 30
  else 31

/-- Days of year `y` that precede the first day of month `m` (1-based);
`daysBeforeMonth y 1 = 0`. -/
def daysBeforeMonth (y : Nat) : Nat → Nat
  | 0 => 0
  | 1 => 0
  | m + 2 => daysBeforeMonth y (m + 1) + daysInMonth y (m + 1)

/-- Days before January 1 of year `y` in the proleptic Gregorian calendar,
as in CPython's `date.toordinal`: `365*(y-1) + (y-1)//4 - (y-1)//100 +
(y-1)//400`, reassociated so that the single Nat subtraction is exact. -/
def daysBeforeYear (y : Nat) : Nat :=
  365 * (y - 1) + (y - 1) / 4 + (y - 1) / 400 - (y - 1) / 100

/-- CPython `date.toordinal`: day number with `0001-01-01` as day 1. -/
def toRataDie (d : Date) : Nat :=
  daysBeforeYear d.year + daysBeforeMonth d.year d.month + d.day

/-- CPython `date.weekday()`: Monday = 0 .. Sunday = 6 (day 1, 0001-01-01,
was a Monday). -/
def weekday (d : Date) : Nat := (toRataDie d + 6) % 7

/-- Embedding of `datetime.strptime(date_str, '%Y-%m-%d').date()` as used by
`is_weekday_jp` and `count_period_days`: `%Y` consumes exactly four digits,
`%m`/`%d` one or two, the whole string must be consumed, and the `date`
constructor range-checks the fields (a failure raises `ValueError`, which the
callers catch). -/
def parse_date_str (s : String) : Option Date :=
  match splitOnChar '-' s.data with
  | [yc, mc, dc] =>
    match parseComp4 yc, parseComp mc, parseComp dc with
    | some yv, some mv, some dv =>
      if 1 ≤ yv ∧ 1 ≤ mv ∧ mv ≤ 12 ∧ 1 ≤ dv ∧ dv ≤ daysInMonth yv mv then
        some ⟨yv, mv, dv⟩
      else none
    | _, _, _ => none
  | _ => none

/-- Rendering of a date as `YYYY-MM-DD`, the `current_date.strftime('%Y-%m-%d')`
call in `count_period_days`'s loop. -/
def formatDate (d : Date) : String :=
  fmt4 d.year ++ "-" ++ fmt2 d.month ++ "-" ++ fmt2 d.day

/-- Embedding of `is_weekday_jp` (src/check.py lines 8-27, src/graph.py lines
9-27).  The `jpholiday.is_holiday` collaborator is the parameter `hol`.  An
unparseable date string takes the `except ValueError` branch: a warning is
printed and `False` is returned. -/
def is_weekday_jp (hol : Date → Bool) (date_str : String) : Bool :=
  match parse_date_str date_str with
  | none => false
  | some target_date =>
    let is_weekend : Bool := decide (5 ≤ weekday target_date)
    let is_holiday : Bool := hol target_date
    !is_weekend && !is_holiday

/-- Strict comparison of dates, lexicographic on (year, month, day): the order
Python `datetime.date` values are compared with. -/
def dateLtB (a b : Date) : Bool :=
  decide (a.year < b.year) ||
    (a.year == b.year && (decide (a.month < b.month) ||
      (a.month == b.month && decide (a.day < b.day))))

/-- Non-strict date comparison (total order companion of `dateLtB`). -/
def dateLeB (a b : Date) : Bool := !(dateLtB b a)

/-- The `current_date += timedelta(days=1)` step of `count_period_days`. -/
def nextDate (d : Date) : Date :=
  if d.day < daysInMonth d.year d.month then ⟨d.year, d.month, d.day + 1⟩
  else if d.month < 12 then ⟨d.year, d.month + 1, 1⟩
  else ⟨d.year + 1, 1, 1⟩

/-- The `while current_date <= max_date` counting loop of `count_period_days`.
The loop of the source is unbounded; here it carries explicit fuel, and
`count_period_days` passes fuel equal to the number of calendar days in the
closed interval, which is exactly the number of iterations the source's loop
performs (each iteration advances the date by one day). -/
def countLoop : Nat → Date → Date → (Date → Bool) → Nat
  | 0, _, _, _ => 0
  | fuel + 1, cur, maxD, p =>
    if dateLeB cur maxD then
      (if p cur then 1 else 0) + countLoop fuel (nextDate cur) maxD p
    else 0

/-- Recursion behind `uniqFirst`: keep each value whose first occurrence this
is (the `seen` accumulator holds the values already emitted). -/
def uniqFirstAux : List String → List String → List String
  | [], _ => []
  | s :: rest, seen =>
    if s ∈ seen then uniqFirstAux rest seen else s :: uniqFirstAux rest (s :: seen)

/-- First-occurrence deduplication, the embedding of pandas `Series.unique`
(which keeps values in order of first appearance). -/
def uniqFirst (l : List String) : List String := uniqFirstAux l []

/-- Python `min` over a nonempty list of dates (ties keep the earlier
element). -/
def listMinD : Date → List Date → Date
  | a, [] => a
  | a, b :: rest => listMinD (if dateLeB a b then a else b) rest

/-- Python `max` over a nonempty list of dates (ties keep the earlier
element). -/
def listMaxD : Date → List Date → Date
  | a, [] => a
  | a, b :: rest => listMaxD (if dateLeB b a then a else b) rest

/-- Embedding of `count_period_days` (src/graph.py lines 49-89): empty input
returns 0; the distinct date strings are parsed, unparseable ones skipped
(`except ValueError: continue`); if none parse, 0; otherwise every calendar
day from the minimum to the maximum parsed date is formatted back to text,
classified with `is_weekday_jp`, and the matches against the target are
counted. -/
def count_period_days (dates : List String) (is_weekday_target : Bool)
    (hol : Date → Bool) : Nat :=
  if dates.isEmpty then 0
  else
    match (uniqFirst dates).filterMap parse_date_str with
    | [] => 0
    | d0 :: rest =>
      let min_date := listMinD d0 rest
      let max_date := listMaxD d0 rest
      countLoop (toRataDie max_date + 1 - toRataDie min_date) min_date max_date
        (fun cur => is_weekday_jp hol (formatDate cur) == is_weekday_target)

/-- One row of a timetable dataframe after the `parse_time_str` column was
added: the original departure-time text and its parsed value. -/
structure TEntry where
  departure_time : String
  departure_time_obj : Option Time
deriving DecidableEq, Repr

/-- The elementwise `departure_time_obj > p_boarding_time_obj` comparison of
the filter in `find_closest_train_time`: pandas compares an object column
against a scalar treating missing entries as `False` under `>`. -/
def optTimeGt (x : Option Time) (t : Time) : Bool :=
  match x with
  | none => false
  | some v => timeLtB t v

/-- Sort key order used by `sort_values(by='departure_time_obj')`: parsed
times in their own order, missing values last (`na_position='last'`). -/
def entryLeB (a b : TEntry) : Bool :=
  match a.departure_time_obj, b.departure_time_obj with
  | some x, some y => timeLeB x y
  | some _, none => true
  | none, none => true
  | none, some _ => false

/-- Insert into a sorted list, in front of the first element not strictly
smaller. -/
def insertSorted (le : α → α → Bool) (a : α) : List α → List α
  | [] => [a]
  | b :: l => if le a b then a :: b :: l else b :: insertSorted le a l

/-- Insertion sort with a boolean relation. -/
def sortByB (le : α → α → Bool) : List α → List α
  | [] => []
  | a :: l => insertSorted le a (sortByB le l)

/-- The timetable-index build of src/check.py lines 110-117: parse each
departure-time string into `departure_time_obj` and sort by that column
(missing values last).  No entry is dropped. -/
def build_timetable (rows : List String) : List TEntry :=
  sortByB entryLeB (rows.map (fun s => ⟨s, parse_time_str s⟩))

/-- The filter-and-take-first successor query inside `find_closest_train_time`
(src/check.py lines 73-84): keep the rows whose parsed departure time is
strictly greater than the boarding time and return the departure-time text of
the first remaining row, or `None` if none remains. -/
def firstDepartureAfter (tbl : List TEntry) (t : Time) : Option String :=
  match tbl.filter (fun e => optTimeGt e.departure_time_obj t) with
  | [] => none
  | e :: _ => some e.departure_time

/-- Embedding of `find_closest_train_time` (src/check.py lines 47-84): absent
boarding time short-circuits to `None`; otherwise the date is classified and
the weekday or weekend timetable selected, and the successor filter runs on
it. -/
def find_closest_train_time (p_date_str : String) (p_boarding_time_obj : Option Time)
    (timetable_weekday : List TEntry) (timetable_weekend : List TEntry)
    (hol : Date → Bool) : Option String :=
  match p_boarding_time_obj with
  | none => none
  | some t =>
    let target_timetable :=
      if is_weekday_jp hol p_date_str then timetable_weekday else timetable_weekend
    match target_timetable.filter (fun e => optTimeGt e.departure_time_obj t) with
    | [] => none
    | e :: _ => some e.departure_time

/-- One aggregate output row of `process_and_plot_traffic`: departure-time
text, total passenger count and per-day average. -/
structure AggRow where
  train_time : String
  passenger_count_total : Nat
  passenger_count_avg_per_day : ℚ
deriving DecidableEq, Repr

/-- Sort key order of `sort_values(by='train_time_obj')` on the aggregate
rows: parsed times in their own order, missing values last. -/
def rowLeB (a b : AggRow) : Bool :=
  match parse_time_str a.train_time, parse_time_str b.train_time with
  | some x, some y => timeLeB x y
  | some _, none => true
  | none, none => true
  | none, some _ => false

/-- The aggregation core of `process_and_plot_traffic` (src/graph.py lines
141-150): `value_counts` groups the matched departure-time strings by exact
string equality (one key per distinct string, counted over the whole column),
the per-day average divides by the period day count, and the rows are sorted
by the parsed time.  `value_counts` orders keys by descending count before the
sort re-orders them by time; that intermediate order is not observable in the
final result and the keys are produced here in first-occurrence order. -/
def aggregate (valid_train_times : List String) (num_days : Nat) : List AggRow :=
  sortByB rowLeB ((uniqFirst valid_train_times).map
    (fun k => ⟨k, valid_train_times.count k,
      (valid_train_times.count k : ℚ) / (num_days : ℚ)⟩))

/-- One passenger row as `process_and_plot_traffic` sees it: the entry date
text and the assigned departure time (`None` for unmatched). -/
structure PRow where
  data_date : String
  train_time : Option String
deriving DecidableEq, Repr

/-- Observable outcome of one `process_and_plot_traffic` call.  The source
returns early, emitting nothing, in two distinguishable ways (distinct console
diagnostics and no output files): no valid train data, or a period day count
of zero ("cannot compute average").  Otherwise it emits the aggregate rows to
the output sink. -/
inductive TrafficResult where
  | noValidData : TrafficResult
  | zeroPeriodDays : TrafficResult
  | rows : List AggRow → TrafficResult
deriving DecidableEq, Repr

/-- Embedding of `process_and_plot_traffic` (src/graph.py lines 114-210,
aggregation logic only — file paths and chart rendering are presentation):
drop the rows with no assigned train time; if none remain, report no valid
data; count the period days over the remaining rows' dates; if zero, report
the cannot-compute-average condition; otherwise emit the aggregate rows. -/
def process_and_plot_traffic (df_traffic : List PRow) (is_weekday_target : Bool)
    (hol : Date → Bool) : TrafficResult :=
  let df_valid_trains := df_traffic.filter (fun r => r.train_time.isSome)
  if df_valid_trains.isEmpty then .noValidData
  else
    let num_days := count_period_days (df_valid_trains.map (fun r => r.data_date))
      is_weekday_target hol
    if num_days = 0 then .zeroPeriodDays
    else .rows (aggregate (df_valid_trains.filterMap (fun r => r.train_time)) num_days)

/-! Order lemmas for the boolean comparisons. -/

theorem timeLtB_iff {a b : Time} :
    timeLtB a b = true ↔
      a.hour < b.hour ∨ (a.hour = b.hour ∧
        (a.minute < b.minute ∨ (a.minute = b.minute ∧ a.second < b.second))) := by
  simp [timeLtB, Bool.or_eq_true, Bool.and_eq_true, decide_eq_true_eq]

theorem timeLeB_iff {a b : Time} :
    timeLeB a b = true ↔
      a.hour < b.hour ∨ (a.hour = b.hour ∧
        (a.minute < b.minute ∨ (a.minute = b.minute ∧ a.second ≤ b.second))) := by
  rw [timeLeB, Bool.not_eq_true', ← Bool.not_eq_true, not_iff_comm, timeLtB_iff]
  omega

theorem timeLeB_total (a b : Time) : timeLeB a b = true ∨ timeLeB b a = true := by
  rw [timeLeB_iff, timeLeB_iff]; omega

theorem timeLeB_trans {a b c : Time} (hab : timeLeB a b = true)
    (hbc : timeLeB b c = true) : timeLeB a c = true := by
  rw [timeLeB_iff] at hab hbc ⊢; omega

theorem timeLeB_refl (a : Time) : timeLeB a a = true := by
  rw [timeLeB_iff]; omega

theorem dateLtB_iff {a b : Date} :
    dateLtB a b = true ↔
      a.year < b.year ∨ (a.year = b.year ∧
        (a.month < b.month ∨ (a.month = b.month ∧ a.day < b.day))) := by
  simp [dateLtB, Bool.or_eq_true, Bool.and_eq_true, decide_eq_true_eq]

theorem dateLeB_iff {a b : Date} :
    dateLeB a b = true ↔
      a.year < b.year ∨ (a.year = b.year ∧
        (a.month < b.month ∨ (a.month = b.month ∧ a.day ≤ b.day))) := by
  rw [dateLeB, Bool.not_eq_true', ← Bool.not_eq_true, not_iff_comm, dateLtB_iff]
  omega

theorem dateLeB_total (a b : Date) : dateLeB a b = true ∨ dateLeB b a = true := by
  rw [dateLeB_iff, dateLeB_iff]; omega

theorem dateLeB_trans {a b c : Date} (hab : dateLeB a b = true)
    (hbc : dateLeB b c = true) : dateLeB a c = true := by
  rw [dateLeB_iff] at hab hbc ⊢; omega

theorem entryLeB_total (a b : TEntry) : entryLeB a b = true ∨ entryLeB b a = true := by
  unfold entryLeB
  cases a.departure_time_obj <;> cases b.departure_time_obj <;> simp
  exact timeLeB_total _ _

theorem entryLeB_trans {a b c : TEntry} (hab : entryLeB a b = true)
    (hbc : entryLeB b c = true) : entryLeB a c = true := by
  cases hx : a.departure_time_obj <;> cases hy : b.departure_time_obj <;>
    cases hz : c.departure_time_obj <;> simp_all [entryLeB]
  exact timeLeB_trans hab hbc

theorem entryLeB_refl (a : TEntry) : entryLeB a a = true := by
  unfold entryLeB
  cases a.departure_time_obj <;> simp [timeLeB_refl]

theorem rowLeB_total (a b : AggRow) : rowLeB a b = true ∨ rowLeB b a = true := by
  unfold rowLeB
  cases parse_time_str a.train_time <;> cases parse_time_str b.train_time <;> simp
  exact timeLeB_total _ _

theorem rowLeB_trans {a b c : AggRow} (hab : rowLeB a b = true)
    (hbc : rowLeB b c = true) : rowLeB a c = true := by
  cases hx : parse_time_str a.train_time <;> cases hy : parse_time_str b.train_time <;>
    cases hz : parse_time_str c.train_time <;> simp_all [rowLeB]
  exact timeLeB_trans hab hbc

/-! Permutation and sortedness of the insertion sort. -/

theorem insertSorted_perm (le : α → α → Bool) (a : α) (l : List α) :
    (insertSorted le a l).Perm (a :: l) := by
  induction l with
  | nil => simp [insertSorted]
  | cons b l ih =>
    unfold insertSorted
    split
    · exact List.Perm.refl _
    · exact (List.perm_cons b |>.mpr ih).trans (List.Perm.swap a b l)

theorem sortByB_perm (le : α → α → Bool) (l : List α) : (sortByB le l).Perm l := by
  induction l with
  | nil => exact List.Perm.refl _
  | cons a l ih =>
    exact (insertSorted_perm le a (sortByB le l)).trans (List.perm_cons a |>.mpr ih)

theorem mem_sortByB {le : α → α → Bool} {l : List α} {x : α} :
    x ∈ sortByB le l ↔ x ∈ l :=
  (sortByB_perm le l).mem_iff

theorem pairwise_insertSorted {le : α → α → Bool}
    (htot : ∀ a b, le a b = true ∨ le b a = true)
    (htrans : ∀ {a b c}, le a b = true → le b c = true → le a c = true)
    (a : α) {l : List α} (h : l.Pairwise (fun x y => le x y = true)) :
    (insertSorted le a l).Pairwise (fun x y => le x y = true) := by
  induction l with
  | nil => simp [insertSorted]
  | cons b l ih =>
    rcases List.pairwise_cons.mp h with ⟨hb, hl⟩
    unfold insertSorted
    split
    · rename_i hab
      exact List.pairwise_cons.mpr ⟨fun y hy => by
        rcases List.mem_cons.mp hy with rfl | hy
        · exact hab
        · exact htrans hab (hb y hy), h⟩
    · rename_i hab
      have hba : le b a = true := (htot a b).resolve_left (by simpa using hab)
      refine List.pairwise_cons.mpr ⟨fun y hy => ?_, ih hl⟩
      rcases List.mem_cons.mp ((insertSorted_perm le a l).mem_iff.mp hy) with rfl | h1
      · exact hba
      · exact hb y h1

theorem pairwise_sortByB {le : α → α → Bool}
    (htot : ∀ a b, le a b = true ∨ le b a = true)
    (htrans : ∀ {a b c}, le a b = true → le b c = true → le a c = true)
    (l : List α) : (sortByB le l).Pairwise (fun x y => le x y = true) := by
  induction l with
  | nil => simp [sortByB]
  | cons a l ih => exact pairwise_insertSorted htot htrans a ih

/-! Successor query: the head of the filtered sorted timetable is the least
matching entry. -/

theorem firstDepartureAfter_eq_none_iff {tbl : List TEntry} {t : Time} :
    firstDepartureAfter tbl t = none ↔
      ∀ e ∈ tbl, optTimeGt e.departure_time_obj t = false := by
  unfold firstDepartureAfter
  constructor
  · intro h e he
    cases hf : tbl.filter (fun e => optTimeGt e.departure_time_obj t) with
    | nil =>
      have := List.filter_eq_nil_iff.mp hf e he
      simpa using this
    | cons x xs => rw [hf] at h; simp at h
  · intro h
    have hf : tbl.filter (fun e => optTimeGt e.departure_time_obj t) = [] :=
      List.filter_eq_nil_iff.mpr (fun e he => by simp [h e he])
    rw [hf]

theorem filter_head_min {tbl : List TEntry} {t : Time} {e : TEntry} {rest : List TEntry}
    (hsort : tbl.Pairwise (fun x y => entryLeB x y = true))
    (hf : tbl.filter (fun x => optTimeGt x.departure_time_obj t) = e :: rest) :
    e ∈ tbl ∧ optTimeGt e.departure_time_obj t = true ∧
      ∀ e2 ∈ tbl, optTimeGt e2.departure_time_obj t = true → entryLeB e e2 = true := by
  induction tbl with
  | nil => simp at hf
  | cons a l ih =>
    rcases List.pairwise_cons.mp hsort with ⟨ha, hl⟩
    rw [List.filter_cons] at hf
    by_cases hpa : optTimeGt a.departure_time_obj t = true
    · rw [if_pos hpa] at hf
      injection hf with h1 h2
      subst h1
      refine ⟨List.mem_cons_self _ _, hpa, fun e2 he2 _ => ?_⟩
      rcases List.mem_cons.mp he2 with rfl | he2
      · exact entryLeB_refl _
      · exact ha e2 he2
    · rw [if_neg hpa] at hf
      obtain ⟨he, hpe, hmin⟩ := ih hl hf
      refine ⟨List.mem_cons_of_mem _ he, hpe, fun e2 he2 hp2 => ?_⟩
      rcases List.mem_cons.mp he2 with rfl | he2
      · exact absurd hp2 hpa
      · exact hmin e2 he2 hp2

theorem firstDepartureAfter_some_min {tbl : List TEntry} {t : Time} {s : String}
    (hsort : tbl.Pairwise (fun x y => entryLeB x y = true))
    (h : firstDepartureAfter tbl t = some s) :
    ∃ e ∈ tbl, e.departure_time = s ∧ optTimeGt e.departure_time_obj t = true ∧
      ∀ e2 ∈ tbl, optTimeGt e2.departure_time_obj t = true → entryLeB e e2 = true := by
  unfold firstDepartureAfter at h
  cases hf : tbl.filter (fun x => optTimeGt x.departure_time_obj t) with
  | nil => rw [hf] at h; simp at h
  | cons e rest =>
    rw [hf] at h
    simp only [Option.some.injEq] at h
    obtain ⟨he, hpe, hmin⟩ := filter_head_min hsort hf
    exact ⟨e, he, h, hpe, hmin⟩

/-- Absent parsed departure times never pass the strictly-greater filter, so
removing them from a timetable does not change any successor query result. -/
theorem firstDepartureAfter_drop_none (tbl : List TEntry) (t : Time) :
    firstDepartureAfter tbl t =
      firstDepartureAfter (tbl.filter (fun e => e.departure_time_obj.isSome)) t := by
  unfold firstDepartureAfter
  rw [List.filter_filter]
  have : (fun e : TEntry => optTimeGt e.departure_time_obj t) =
      (fun e : TEntry => optTimeGt e.departure_time_obj t && e.departure_time_obj.isSome) := by
    funext e
    cases e.departure_time_obj <;> simp [optTimeGt]
  rw [← this]

/-! Calendar arithmetic: validity, the day-ordinal, and the one-day step. -/

/-- The invariant every `datetime.date` value satisfies (the constructor
enforces it). -/
def ValidDate (d : Date) : Prop :=
  1 ≤ d.year ∧ 1 ≤ d.month ∧ d.month ≤ 12 ∧ 1 ≤ d.day ∧ d.day ≤ daysInMonth d.year d.month

instance (d : Date) : Decidable (ValidDate d) := by unfold ValidDate; infer_instance

theorem parse_date_str_valid {s : String} {d : Date}
    (h : parse_date_str s = some d) : ValidDate d := by
  unfold parse_date_str at h
  split at h
  · split at h
    · split at h
      · rename_i hcond
        injection h with h
        subst h
        exact ⟨hcond.1, hcond.2.1, hcond.2.2.1, hcond.2.2.2.1, hcond.2.2.2.2⟩
      · exact absurd h (by simp)
    all_goals exact absurd h (by simp)
  · exact absurd h (by simp)

theorem daysInMonth_pos (y m : Nat) : 1 ≤ daysInMonth y m := by
  unfold daysInMonth
  split
  · split <;> omega
  · split <;> omega

theorem daysBeforeMonth_succ (y : Nat) {m : Nat} (hm : 1 ≤ m) :
    daysBeforeMonth y (m + 1) = daysBeforeMonth y m + daysInMonth y m := by
  obtain ⟨k, rfl⟩ : ∃ k, m = k + 1 := ⟨m - 1, by omega⟩
  rfl

theorem daysBeforeMonth_mono (y : Nat) {m1 m2 : Nat} (h : m1 ≤ m2) :
    daysBeforeMonth y m1 ≤ daysBeforeMonth y m2 := by
  obtain ⟨k, rfl⟩ : ∃ k, m2 = m1 + k := ⟨m2 - m1, by omega⟩
  clear h
  induction k with
  | zero => exact Nat.le_refl _
  | succ k ih =>
    refine ih.trans ?_
    rcases Nat.eq_zero_or_pos (m1 + k) with hz | hp
    · rw [hz]; exact Nat.zero_le _
    · rw [← Nat.add_assoc, daysBeforeMonth_succ y hp]; omega

theorem daysBeforeMonth_thirteen (y : Nat) :
    daysBeforeMonth y 13 = 365 + (if isLeap y then 1 else 0) := by
  show daysBeforeMonth y (11 + 2) = _
  simp only [daysBeforeMonth, daysInMonth]
  norm_num
  split <;> omega

theorem isLeap_iff {y : Nat} :
    isLeap y = true ↔ (4 ∣ y ∧ ¬(100 ∣ y)) ∨ 400 ∣ y := by
  simp [isLeap, Bool.or_eq_true, Bool.and_eq_true, Nat.dvd_iff_mod_eq_zero,
    beq_iff_eq, bne_iff_ne]

theorem daysBeforeYear_succ {y : Nat} (hy : 1 ≤ y) :
    daysBeforeYear (y + 1) = daysBeforeYear y + 365 + (if isLeap y then 1 else 0) := by
  obtain ⟨k, rfl⟩ : ∃ k, y = k + 1 := ⟨y - 1, by omega⟩
  have h100le : k / 100 ≤ k / 4 := Nat.div_le_div_left (by omega) (by omega)
  have himp1 : (400 : Nat) ∣ k + 1 → (100 : Nat) ∣ k + 1 :=
    fun h => dvd_trans (by norm_num) h
  have himp2 : (100 : Nat) ∣ k + 1 → (4 : Nat) ∣ k + 1 :=
    fun h => dvd_trans (by norm_num) h
  unfold daysBeforeYear
  simp only [Nat.add_sub_cancel]
  rw [Nat.succ_div k 4, Nat.succ_div k 100, Nat.succ_div k 400]
  rcases em ((4 : Nat) ∣ k + 1) with h4 | h4
  · rcases em ((100 : Nat) ∣ k + 1) with h100 | h100
    · rcases em ((400 : Nat) ∣ k + 1) with h400 | h400
      · have hL : isLeap (k + 1) = true := isLeap_iff.mpr (Or.inr h400)
        rw [if_pos h4, if_pos h100, if_pos h400, if_pos hL]
        omega
      · have hL : isLeap (k + 1) = false := by
          rw [Bool.eq_false_iff]
          intro hc
          rcases isLeap_iff.mp hc with ⟨_, hc2⟩ | hc2
          · exact hc2 h100
          · exact h400 hc2
        have hnL : ¬(isLeap (k + 1) = true) := by rw [hL]; simp
        rw [if_pos h4, if_pos h100, if_neg h400, if_neg hnL]
        omega
    · have h400 : ¬((400 : Nat) ∣ k + 1) := fun h => h100 (himp1 h)
      have hL : isLeap (k + 1) = true := isLeap_iff.mpr (Or.inl ⟨h4, h100⟩)
      rw [if_pos h4, if_neg h100, if_neg h400, if_pos hL]
      omega
  · have h100 : ¬((100 : Nat) ∣ k + 1) := fun h => h4 (himp2 h)
    have h400 : ¬((400 : Nat) ∣ k + 1) := fun h => h100 (himp1 h)
    have hL : isLeap (k + 1) = false := by
      rw [Bool.eq_false_iff]
      intro hc
      rcases isLeap_iff.mp hc with ⟨hc1, _⟩ | hc2
      · exact h4 hc1
      · exact h400 hc2
    have hnL : ¬(isLeap (k + 1) = true) := by rw [hL]; simp
    rw [if_neg h4, if_neg h100, if_neg h400, if_neg hnL]
    omega

theorem daysBeforeYear_le_succ (y : Nat) : daysBeforeYear y ≤ daysBeforeYear (y + 1) := by
  rcases Nat.eq_zero_or_pos y with hz | hp
  · subst hz; exact Nat.zero_le _
  · rw [daysBeforeYear_succ hp]; omega

theorem daysBeforeYear_mono {y1 y2 : Nat} (h : y1 ≤ y2) :
    daysBeforeYear y1 ≤ daysBeforeYear y2 := by
  obtain ⟨k, rfl⟩ : ∃ k, y2 = y1 + k := ⟨y2 - y1, by omega⟩
  clear h
  induction k with
  | zero => exact Nat.le_refl _
  | succ k ih => exact ih.trans (by rw [← Nat.add_assoc]; exact daysBeforeYear_le_succ _)

theorem nextDate_valid {d : Date} (h : ValidDate d) : ValidDate (nextDate d) := by
  obtain ⟨hy, hm1, hm2, hd1, hd2⟩ := h
  unfold nextDate
  split
  · rename_i hlt
    refine ⟨?_, ?_, ?_, ?_, ?_⟩ <;> dsimp only <;> omega
  · split
    · refine ⟨?_, ?_, ?_, ?_, ?_⟩ <;> dsimp only
      · exact hy
      · omega
      · omega
      · omega
      · exact daysInMonth_pos _ _
    · refine ⟨?_, ?_, ?_, ?_, ?_⟩ <;> dsimp only
      · omega
      · omega
      · omega
      · omega
      · exact daysInMonth_pos _ _

theorem toRataDie_nextDate {d : Date} (h : ValidDate d) :
    toRataDie (nextDate d) = toRataDie d + 1 := by
  obtain ⟨hy, hm1, hm2, hd1, hd2⟩ := h
  unfold nextDate toRataDie
  split
  · dsimp only
    omega
  · rename_i hlt
    have hde : d.day = daysInMonth d.year d.month := by omega
    split
    · rename_i hm12
      dsimp only
      rw [daysBeforeMonth_succ d.year hm1]
      omega
    · rename_i hm12
      have hm : d.month = 12 := by omega
      dsimp only
      rw [daysBeforeYear_succ hy]
      have h13 : daysBeforeMonth d.year 13 = 365 + (if isLeap d.year then 1 else 0) :=
        daysBeforeMonth_thirteen d.year
      rw [daysBeforeMonth_succ d.year (by omega : 1 ≤ (12 : Nat))] at h13
      have hb1 : daysBeforeMonth (d.year + 1) 1 = 0 := rfl
      rw [hm] at hde
      rw [hm, hb1]
      omega

theorem toRataDie_lt_of_dateLtB {d e : Date} (hd : ValidDate d) (he : ValidDate e)
    (h : dateLtB d e = true) : toRataDie d < toRataDie e := by
  obtain ⟨hdy, hdm1, hdm2, hdd1, hdd2⟩ := hd
  obtain ⟨hey, hem1, hem2, hed1, hed2⟩ := he
  rcases dateLtB_iff.mp h with hy | ⟨hy, hm | ⟨hm, hday⟩⟩
  · have h1 : toRataDie d ≤ daysBeforeYear d.year + daysBeforeMonth d.year 13 := by
      unfold toRataDie
      have h2 : daysBeforeMonth d.year d.month + d.day ≤
          daysBeforeMonth d.year (d.month + 1) := by
        rw [daysBeforeMonth_succ d.year hdm1]; omega
      have h3 : daysBeforeMonth d.year (d.month + 1) ≤ daysBeforeMonth d.year 13 :=
        daysBeforeMonth_mono d.year (by omega)
      omega
    have h4 : daysBeforeYear d.year + daysBeforeMonth d.year 13 = daysBeforeYear (d.year + 1) := by
      rw [daysBeforeMonth_thirteen, daysBeforeYear_succ hdy]; omega
    have h5 : daysBeforeYear (d.year + 1) ≤ daysBeforeYear e.year :=
      daysBeforeYear_mono (by omega)
    have h6 : daysBeforeYear e.year < toRataDie e := by
      unfold toRataDie
      have := Nat.zero_le (daysBeforeMonth e.year e.month)
      omega
    omega
  · unfold toRataDie
    rw [hy]
    have h2 : daysBeforeMonth e.year d.month + d.day ≤
        daysBeforeMonth e.year (d.month + 1) := by
      rw [daysBeforeMonth_succ e.year hdm1]
      rw [hy] at hdd2
      omega
    have h3 : daysBeforeMonth e.year (d.month + 1) ≤ daysBeforeMonth e.year e.month :=
      daysBeforeMonth_mono e.year (by omega)
    omega
  · unfold toRataDie
    rw [hy, hm]
    omega

theorem dateLeB_iff_toRataDie {d e : Date} (hd : ValidDate d) (he : ValidDate e) :
    dateLeB d e = true ↔ toRataDie d ≤ toRataDie e := by
  constructor
  · intro h
    rcases dateLeB_iff.mp h with hy | ⟨hy, hm | ⟨hm, hday⟩⟩
    · exact Nat.le_of_lt (toRataDie_lt_of_dateLtB hd he (dateLtB_iff.mpr (Or.inl hy)))
    · exact Nat.le_of_lt
        (toRataDie_lt_of_dateLtB hd he (dateLtB_iff.mpr (Or.inr ⟨hy, Or.inl hm⟩)))
    · rcases Nat.lt_or_ge d.day e.day with hlt | hge
      · exact Nat.le_of_lt
          (toRataDie_lt_of_dateLtB hd he (dateLtB_iff.mpr (Or.inr ⟨hy, Or.inr ⟨hm, hlt⟩⟩)))
      · have hde : d = e := by
          cases d; cases e
          simp only [Date.mk.injEq]
          simp only [] at hy hm hday hge
          omega
        rw [hde]
  · intro h
    by_contra hc
    have hlt : dateLtB e d = true := by
      have h1 := dateLeB_iff (a := d) (b := e)
      rw [Bool.not_eq_true] at hc
      rw [dateLtB_iff]
      rcases Nat.lt_trichotomy d.year e.year with h2 | h2 | h2
      · exact absurd (dateLeB_iff.mpr (Or.inl h2)) (by rw [hc]; simp)
      · rcases Nat.lt_trichotomy d.month e.month with h3 | h3 | h3
        · exact absurd (dateLeB_iff.mpr (Or.inr ⟨h2, Or.inl h3⟩)) (by rw [hc]; simp)
        · rcases Nat.lt_trichotomy d.day e.day with h4 | h4 | h4
          · exact absurd (dateLeB_iff.mpr (Or.inr ⟨h2, Or.inr ⟨h3, Nat.le_of_lt h4⟩⟩))
              (by rw [hc]; simp)
          · exact absurd (dateLeB_iff.mpr (Or.inr ⟨h2, Or.inr ⟨h3, Nat.le_of_eq h4⟩⟩))
              (by rw [hc]; simp)
          · exact Or.inr ⟨h2.symm, Or.inr ⟨h3.symm, h4⟩⟩
        · exact Or.inr ⟨h2.symm, Or.inl h3⟩
      · exact Or.inl h2
    have := toRataDie_lt_of_dateLtB he hd hlt
    omega

/-! The counting loop walks one calendar day per iteration. -/

theorem iterate_nextDate_valid {d : Date} (h : ValidDate d) (i : Nat) :
    ValidDate (nextDate^[i] d) := by
  induction i with
  | zero => simpa using h
  | succ i ih =>
    rw [Function.iterate_succ_apply']
    exact nextDate_valid ih

theorem iterate_nextDate_toRataDie {d : Date} (h : ValidDate d) (i : Nat) :
    toRataDie (nextDate^[i] d) = toRataDie d + i := by
  induction i with
  | zero => simp
  | succ i ih =>
    rw [Function.iterate_succ_apply', toRataDie_nextDate (iterate_nextDate_valid h i), ih]
    omega

theorem countLoop_eq_countP {maxD : Date} (hmax : ValidDate maxD) :
    ∀ (fuel : Nat) (cur : Date), ValidDate cur →
      toRataDie cur + fuel = toRataDie maxD + 1 → ∀ (p : Date → Bool),
      countLoop fuel cur maxD p = (List.range fuel).countP (fun i => p (nextDate^[i] cur)) := by
  intro fuel
  induction fuel with
  | zero => intro cur _ _ p; simp [countLoop]
  | succ fuel ih =>
    intro cur hcur hfuel p
    unfold countLoop
    have hle : dateLeB cur maxD = true :=
      (dateLeB_iff_toRataDie hcur hmax).mpr (by omega)
    rw [if_pos hle]
    have hnext : toRataDie (nextDate cur) + fuel = toRataDie maxD + 1 := by
      rw [toRataDie_nextDate hcur]; omega
    rw [ih (nextDate cur) (nextDate_valid hcur) hnext p]
    rw [List.range_succ_eq_map, List.countP_cons, List.countP_map]
    have hfun : ((fun i => p (nextDate^[i] cur)) ∘ Nat.succ) =
        (fun i => p (nextDate^[i] (nextDate cur))) := by
      funext i
      simp [Function.comp, Function.iterate_succ_apply]
    rw [hfun]
    simp only [Function.iterate_zero_apply]
    omega

theorem countP_partition (l : List Nat) (q : Nat → Bool) :
    l.countP q + l.countP (fun x => !(q x)) = l.length := by
  induction l with
  | nil => simp
  | cons a l ih =>
    rw [List.countP_cons, List.countP_cons, List.length_cons]
    cases hq : q a <;> simp [hq] <;> omega

/-! Python min and max over the parsed date list. -/

theorem listMinD_mem (a : Date) (l : List Date) : listMinD a l ∈ a :: l := by
  induction l generalizing a with
  | nil => simp [listMinD]
  | cons b rest ih =>
    unfold listMinD
    have h := ih (if dateLeB a b then a else b)
    rcases List.mem_cons.mp h with h1 | h1
    · rw [h1]
      split <;> simp
    · simp [h1]

theorem listMinD_le (a : Date) (l : List Date) :
    ∀ x ∈ a :: l, dateLeB (listMinD a l) x = true := by
  induction l generalizing a with
  | nil =>
    intro x hx
    rcases List.mem_cons.mp hx with rfl | h1
    · unfold listMinD
      exact (dateLeB_iff).mpr (by omega)
    · simp at h1
  | cons b rest ih =>
    intro x hx
    unfold listMinD
    have hc : dateLeB (if dateLeB a b then a else b) a = true ∧
        dateLeB (if dateLeB a b then a else b) b = true := by
      split
      · rename_i hab
        exact ⟨(dateLeB_iff).mpr (by omega), hab⟩
      · rename_i hab
        have := (dateLeB_total a b).resolve_left hab
        exact ⟨this, (dateLeB_iff).mpr (by omega)⟩
    rcases List.mem_cons.mp hx with rfl | h1
    · exact dateLeB_trans (ih _ _ (List.mem_cons_self _ _)) hc.1
    · rcases List.mem_cons.mp h1 with rfl | h2
      · exact dateLeB_trans (ih _ _ (List.mem_cons_self _ _)) hc.2
      · exact ih _ x (List.mem_cons_of_mem _ h2)

theorem listMaxD_mem (a : Date) (l : List Date) : listMaxD a l ∈ a :: l := by
  induction l generalizing a with
  | nil => simp [listMaxD]
  | cons b rest ih =>
    unfold listMaxD
    have h := ih (if dateLeB b a then a else b)
    rcases List.mem_cons.mp h with h1 | h1
    · rw [h1]
      split <;> simp
    · simp [h1]

theorem listMaxD_ge (a : Date) (l : List Date) :
    ∀ x ∈ a :: l, dateLeB x (listMaxD a l) = true := by
  induction l generalizing a with
  | nil =>
    intro x hx
    rcases List.mem_cons.mp hx with rfl | h1
    · unfold listMaxD
      exact (dateLeB_iff).mpr (by omega)
    · simp at h1
  | cons b rest ih =>
    intro x hx
    unfold listMaxD
    have hc : dateLeB a (if dateLeB b a then a else b) = true ∧
        dateLeB b (if dateLeB b a then a else b) = true := by
      split
      · rename_i hba
        exact ⟨(dateLeB_iff).mpr (by omega), hba⟩
      · rename_i hba
        have := (dateLeB_total b a).resolve_left hba
        exact ⟨this, (dateLeB_iff).mpr (by omega)⟩
    rcases List.mem_cons.mp hx with rfl | h1
    · exact dateLeB_trans hc.1 (ih _ _ (List.mem_cons_self _ _))
    · rcases List.mem_cons.mp h1 with rfl | h2
      · exact dateLeB_trans hc.2 (ih _ _ (List.mem_cons_self _ _))
      · exact ih _ x (List.mem_cons_of_mem _ h2)

/-! Characterization of count_period_days. -/

theorem count_period_days_no_valid {dates : List String} {tgt : Bool} {hol : Date → Bool}
    (h : (uniqFirst dates).filterMap parse_date_str = []) :
    count_period_days dates tgt hol = 0 := by
  unfold count_period_days
  split
  · rfl
  · rw [h]

theorem count_period_days_spec {dates : List String} {tgt : Bool} {hol : Date → Bool}
    {d0 : Date} {rest : List Date}
    (h : (uniqFirst dates).filterMap parse_date_str = d0 :: rest) :
    count_period_days dates tgt hol =
      (List.range (toRataDie (listMaxD d0 rest) + 1 - toRataDie (listMinD d0 rest))).countP
        (fun i => is_weekday_jp hol (formatDate (nextDate^[i] (listMinD d0 rest))) == tgt) := by
  have hne : dates ≠ [] := by
    intro hd
    subst hd
    simp [uniqFirst, uniqFirstAux, List.filterMap] at h
  have hvalid : ∀ x ∈ d0 :: rest, ValidDate x := by
    intro x hx
    rw [← h] at hx
    obtain ⟨s, _, hs⟩ := List.mem_filterMap.mp hx
    exact parse_date_str_valid hs
  have hminv : ValidDate (listMinD d0 rest) := hvalid _ (listMinD_mem d0 rest)
  have hmaxv : ValidDate (listMaxD d0 rest) := hvalid _ (listMaxD_mem d0 rest)
  have hminmax : toRataDie (listMinD d0 rest) ≤ toRataDie (listMaxD d0 rest) :=
    (dateLeB_iff_toRataDie hminv hmaxv).mp (listMaxD_ge d0 rest _ (listMinD_mem d0 rest))
  unfold count_period_days
  rw [if_neg (by simp [List.isEmpty_iff]; exact hne), h]
  exact countLoop_eq_countP hmaxv _ _ hminv (by omega) _

/-! First-occurrence deduplication. -/

theorem mem_uniqFirstAux {l : List String} {x : String} :
    ∀ {seen : List String}, x ∈ uniqFirstAux l seen ↔ x ∈ l ∧ x ∉ seen := by
  induction l with
  | nil => intro seen; simp [uniqFirstAux]
  | cons s rest ih =>
    intro seen
    unfold uniqFirstAux
    by_cases hs : s ∈ seen
    · rw [if_pos hs, ih]
      constructor
      · intro ⟨h1, h2⟩
        exact ⟨List.mem_cons_of_mem _ h1, h2⟩
      · intro ⟨h1, h2⟩
        rcases List.mem_cons.mp h1 with rfl | h1
        · exact absurd hs h2
        · exact ⟨h1, h2⟩
    · rw [if_neg hs, List.mem_cons, ih]
      constructor
      · intro h
        rcases h with rfl | ⟨h1, h2⟩
        · exact ⟨List.mem_cons_self _ _, hs⟩
        · exact ⟨List.mem_cons_of_mem _ h1,
            fun hc => h2 (List.mem_cons_of_mem _ hc)⟩
      · intro ⟨h1, h2⟩
        rcases List.mem_cons.mp h1 with rfl | h1
        · exact Or.inl rfl
        · by_cases hxs : x = s
          · exact Or.inl hxs
          · refine Or.inr ⟨h1, fun hc => ?_⟩
            rcases List.mem_cons.mp hc with h3 | h3
            · exact hxs h3
            · exact h2 h3

theorem mem_uniqFirst {l : List String} {x : String} : x ∈ uniqFirst l ↔ x ∈ l := by
  unfold uniqFirst
  rw [mem_uniqFirstAux]
  simp

theorem nodup_uniqFirstAux (l : List String) : ∀ seen, (uniqFirstAux l seen).Nodup := by
  induction l with
  | nil => intro seen; simp [uniqFirstAux]
  | cons s rest ih =>
    intro seen
    unfold uniqFirstAux
    by_cases hs : s ∈ seen
    · rw [if_pos hs]
      exact ih seen
    · rw [if_neg hs, List.nodup_cons]
      exact ⟨fun hc => (mem_uniqFirstAux.mp hc).2 (List.mem_cons_self _ _), ih (s :: seen)⟩

theorem nodup_uniqFirst (l : List String) : (uniqFirst l).Nodup := nodup_uniqFirstAux l []

/-! Aggregation rows. -/

theorem mem_aggregate {valid : List String} {n : Nat} {r : AggRow}
    (hr : r ∈ aggregate valid n) :
    r.train_time ∈ valid ∧ r.passenger_count_total = valid.count r.train_time ∧
      r.passenger_count_avg_per_day = (valid.count r.train_time : ℚ) / (n : ℚ) := by
  unfold aggregate at hr
  rw [mem_sortByB] at hr
  obtain ⟨k, hk, hkr⟩ := List.mem_map.mp hr
  subst hkr
  exact ⟨mem_uniqFirst.mp hk, rfl, rfl⟩

theorem aggregate_covers {valid : List String} {n : Nat} {s : String} (hs : s ∈ valid) :
    ∃ r ∈ aggregate valid n, r.train_time = s := by
  refine ⟨⟨s, valid.count s, (valid.count s : ℚ) / (n : ℚ)⟩, ?_, rfl⟩
  unfold aggregate
  rw [mem_sortByB]
  exact List.mem_map.mpr ⟨s, mem_uniqFirst.mpr hs, rfl⟩

theorem aggregate_keys_nodup (valid : List String) (n : Nat) :
    ((aggregate valid n).map (fun r => r.train_time)).Nodup := by
  unfold aggregate
  have hperm :
      (((sortByB rowLeB ((uniqFirst valid).map (fun k => (⟨k, valid.count k,
          (valid.count k : ℚ) / (n : ℚ)⟩ : AggRow)))).map (fun r => r.train_time))).Perm
        (((uniqFirst valid).map (fun k => (⟨k, valid.count k,
          (valid.count k : ℚ) / (n : ℚ)⟩ : AggRow))).map (fun r => r.train_time)) :=
    (sortByB_perm _ _).map _
  rw [hperm.nodup_iff, List.map_map]
  have : ((fun r : AggRow => r.train_time) ∘ (fun k => (⟨k, valid.count k,
      (valid.count k : ℚ) / (n : ℚ)⟩ : AggRow))) = fun k => k := rfl
  rw [this, List.map_id']
  exact nodup_uniqFirst valid

theorem aggregate_sorted (valid : List String) (n : Nat) :
    (aggregate valid n).Pairwise (fun a b => rowLeB a b = true) := by
  unfold aggregate
  exact pairwise_sortByB rowLeB_total rowLeB_trans _

/-! Shape characterization of the strptime components. -/

/-- Spec-side shape of one time component: one or two characters, all decimal
digits (the shape a `%H`/`%M`/`%S` directive accepts). -/
def compOK (cs : List Char) : Prop :=
  (cs.length = 1 ∨ cs.length = 2) ∧ ∀ c ∈ cs, c.isDigit = true

/-- Numeric value of a one- or two-digit component (0 for other shapes). -/
def compValue : List Char → Nat
  | [c] => digitVal c
  | [c1, c2] => 10 * digitVal c1 + digitVal c2
  | _ => 0

theorem parseComp_some_iff {cs : List Char} {v : Nat} :
    parseComp cs = some v ↔ compOK cs ∧ compValue cs = v := by
  match cs with
  | [] => simp [parseComp, compOK]
  | [c] =>
    by_cases h : c.isDigit = true <;>
      simp [parseComp, compOK, compValue, h]
  | [c1, c2] =>
    by_cases h1 : c1.isDigit = true <;> by_cases h2 : c2.isDigit = true <;>
      simp [parseComp, compOK, compValue, h1, h2]
  | c1 :: c2 :: c3 :: tl =>
    simp only [parseComp, compOK]
    constructor
    · intro hc; exact absurd hc (by simp)
    · intro ⟨⟨h, _⟩, _⟩
      simp [List.length_cons] at h

theorem parseComp_none_iff {cs : List Char} :
    parseComp cs = none ↔ ¬ compOK cs := by
  constructor
  · intro h hOK
    have := parseComp_some_iff.mpr ⟨hOK, rfl⟩
    rw [h] at this
    exact Option.noConfusion this
  · intro h
    cases hc : parseComp cs with
    | none => rfl
    | some v => exact absurd (parseComp_some_iff.mp hc).1 h

/-- Spec-side shape of an accepted time string: split at the colons, the
string has exactly one or two of them, every component is one or two decimal
digits, and the field values are in range (hour at most 23, minute and second
at most 59). -/
def GoodTimeShape (s : String) : Prop :=
  match splitOnChar ':' s.data with
  | [hc, mc] => compOK hc ∧ compOK mc ∧ compValue hc ≤ 23 ∧ compValue mc ≤ 59
  | [hc, mc, sc] => compOK hc ∧ compOK mc ∧ compOK sc ∧
      compValue hc ≤ 23 ∧ compValue mc ≤ 59 ∧ compValue sc ≤ 59
  | _ => False

theorem parse_time_str_isSome_iff {s : String} :
    (parse_time_str s).isSome = true ↔ GoodTimeShape s := by
  unfold parse_time_str GoodTimeShape
  cases hsp : splitOnChar ':' s.data with
  | nil => simp
  | cons p1 ps =>
    cases ps with
    | nil => simp
    | cons p2 ps2 =>
      cases ps2 with
      | nil =>
        dsimp only
        cases hh : parseComp p1 with
        | none =>
          have hn1 : ¬ compOK p1 := parseComp_none_iff.mp hh
          simp [hn1]
        | some hv =>
          obtain ⟨hOK1, hv1⟩ := parseComp_some_iff.mp hh
          subst hv1
          cases hm : parseComp p2 with
          | none =>
            have hn2 : ¬ compOK p2 := parseComp_none_iff.mp hm
            simp [hn2]
          | some mv =>
            obtain ⟨hOK2, hv2⟩ := parseComp_some_iff.mp hm
            subst hv2
            dsimp only
            by_cases hrange : compValue p1 ≤ 23 ∧ compValue p2 ≤ 59
            · rw [if_pos hrange]
              simp [hOK1, hOK2, hrange.1, hrange.2]
            · rw [if_neg hrange]
              simp only [Option.isSome_none, Bool.false_eq_true, false_iff]
              intro ⟨_, _, hr1, hr2⟩
              exact hrange ⟨hr1, hr2⟩
      | cons p3 ps3 =>
        cases ps3 with
        | nil =>
          dsimp only
          cases hh : parseComp p1 with
          | none =>
            have hn1 : ¬ compOK p1 := parseComp_none_iff.mp hh
            simp [hn1]
          | some hv =>
            obtain ⟨hOK1, hv1⟩ := parseComp_some_iff.mp hh
            subst hv1
            cases hm : parseComp p2 with
            | none =>
              have hn2 : ¬ compOK p2 := parseComp_none_iff.mp hm
              simp [hn2]
            | some mv =>
              obtain ⟨hOK2, hv2⟩ := parseComp_some_iff.mp hm
              subst hv2
              cases hs2 : parseComp p3 with
              | none =>
                have hn3 : ¬ compOK p3 := parseComp_none_iff.mp hs2
                simp [hn3]
              | some sv =>
                obtain ⟨hOK3, hv3⟩ := parseComp_some_iff.mp hs2
                subst hv3
                dsimp only
                by_cases hrange : compValue p1 ≤ 23 ∧ compValue p2 ≤ 59 ∧ compValue p3 ≤ 59
                · rw [if_pos hrange]
                  simp [hOK1, hOK2, hOK3, hrange.1, hrange.2.1, hrange.2.2]
                · rw [if_neg hrange]
                  simp only [Option.isSome_none, Bool.false_eq_true, false_iff]
                  intro ⟨_, _, _, hr1, hr2, hr3⟩
                  exact hrange ⟨hr1, hr2, hr3⟩
        | cons p4 ps4 => simp

/-! Splitting rendered strings back into their components. -/

theorem splitOnChar_no_sep {sep : Char} {xs : List Char} (h : sep ∉ xs) :
    splitOnChar sep xs = [xs] := by
  induction xs with
  | nil => rfl
  | cons c cs ih =>
    have hc : ¬(c = sep) := fun hcc => h (hcc ▸ List.mem_cons_self c cs)
    have hcs : sep ∉ cs := fun hm => h (List.mem_cons_of_mem c hm)
    unfold splitOnChar
    rw [if_neg hc, ih hcs]

theorem splitOnChar_append {sep : Char} {xs ys : List Char} (h : sep ∉ xs) :
    splitOnChar sep (xs ++ sep :: ys) = xs :: splitOnChar sep ys := by
  induction xs with
  | nil =>
    show splitOnChar sep (sep :: ys) = [] :: splitOnChar sep ys
    conv_lhs => unfold splitOnChar
    rw [if_pos rfl]
  | cons c cs ih =>
    have hc : ¬(c = sep) := fun hcc => h (hcc ▸ List.mem_cons_self c cs)
    have hcs : sep ∉ cs := fun hm => h (List.mem_cons_of_mem c hm)
    show splitOnChar sep (c :: (cs ++ sep :: ys)) = (c :: cs) :: splitOnChar sep ys
    conv_lhs => unfold splitOnChar
    rw [if_neg hc, ih hcs]

theorem digitChar_isDigit {d : Nat} (h : d ≤ 9) : (digitChar d).isDigit = true := by
  interval_cases d <;> decide

theorem digitChar_ne_colon {d : Nat} (h : d ≤ 9) : ¬(digitChar d = ':') := by
  interval_cases d <;> decide

theorem digitVal_digitChar {d : Nat} (h : d ≤ 9) : digitVal (digitChar d) = d := by
  interval_cases d <;> decide

theorem colon_not_mem_fmt2 {n : Nat} (h : n ≤ 99) : ':' ∉ (fmt2 n).data := by
  intro hm
  rcases List.mem_cons.mp hm with h1 | h1
  · exact digitChar_ne_colon (by omega) h1.symm
  · rcases List.mem_cons.mp h1 with h2 | h2
    · exact digitChar_ne_colon (by omega) h2.symm
    · simp at h2

theorem parseComp_fmt2 {n : Nat} (h : n ≤ 99) :
    parseComp (fmt2 n).data = some n := by
  show parseComp [digitChar (n / 10), digitChar (n % 10)] = some n
  unfold parseComp
  dsimp only
  rw [if_pos (by rw [digitChar_isDigit (by omega), digitChar_isDigit (by omega)]; rfl)]
  rw [digitVal_digitChar (by omega), digitVal_digitChar (by omega)]
  congr 1
  omega

theorem parse_time_str_fmt2_pair {h m : Nat} (hh : h ≤ 23) (hm : m ≤ 59) :
    parse_time_str (fmt2 h ++ ":" ++ fmt2 m) = some ⟨h, m, 0⟩ := by
  unfold parse_time_str
  have hdata : (fmt2 h ++ ":" ++ fmt2 m).data = (fmt2 h).data ++ ':' :: (fmt2 m).data := by
    rw [String.data_append, String.data_append]
    rfl
  rw [hdata, splitOnChar_append (colon_not_mem_fmt2 (by omega)),
    splitOnChar_no_sep (colon_not_mem_fmt2 (by omega))]
  dsimp only
  rw [parseComp_fmt2 (by omega), parseComp_fmt2 (by omega)]
  dsimp only
  rw [if_pos ⟨hh, hm⟩]

theorem parse_time_str_fmt2_triple {h m : Nat} (hh : h ≤ 23) (hm : m ≤ 59) :
    parse_time_str (fmt2 h ++ ":" ++ fmt2 m ++ ":00") = some ⟨h, m, 0⟩ := by
  unfold parse_time_str
  have hdata : (fmt2 h ++ ":" ++ fmt2 m ++ ":00").data
      = (fmt2 h).data ++ ':' :: ((fmt2 m).data ++ ':' :: ['0', '0']) := by
    rw [String.data_append, String.data_append, String.data_append,
      List.append_assoc, List.append_assoc]
    rfl
  rw [hdata, splitOnChar_append (colon_not_mem_fmt2 (by omega)),
    splitOnChar_append (colon_not_mem_fmt2 (by omega)),
    splitOnChar_no_sep (by decide : ':' ∉ ['0', '0'])]
  dsimp only
  rw [parseComp_fmt2 (by omega), parseComp_fmt2 (by omega),
    (by decide : parseComp ['0', '0'] = some 0)]
  dsimp only
  rw [if_pos ⟨hh, hm, by omega⟩]

theorem formatTime_fmt (h m : Nat) :
    formatTime ⟨h, m, 0⟩ = fmt2 h ++ ":" ++ fmt2 m ++ ":00" := by
  unfold formatTime
  dsimp only
  rw [(by decide : fmt2 0 = "00"), String.append_assoc (fmt2 h ++ ":" ++ fmt2 m)]
  rfl

/-! Claim theorems. -/

/-- C1: for every timetable sequence sorted ascending by parsed departure time
with every entry parsed, and every valid boarding time `t`, the
filter-and-take-first successor query of `find_closest_train_time` returns
absence exactly when no departure is strictly greater than `t` (so a boarding
time at or after the last departure yields absence), and otherwise returns a
departure whose parsed value is the smallest value strictly greater than `t`
(strict: a boarding time equal to a departure never matches it). -/
theorem C1_successor_query (tbl : List TEntry) (t : Time)
    (hvalid : t.hour ≤ 23 ∧ t.minute ≤ 59 ∧ t.second ≤ 59)
    (hall : ∀ e ∈ tbl, e.departure_time_obj.isSome = true)
    (hsort : tbl.Pairwise (fun a b => entryLeB a b = true)) :
    (firstDepartureAfter tbl t = none ↔
      ∀ e ∈ tbl, ∀ v, e.departure_time_obj = some v → timeLtB t v = false)
    ∧ (∀ s, firstDepartureAfter tbl t = some s →
        ∃ e ∈ tbl, e.departure_time = s ∧ ∃ v, e.departure_time_obj = some v ∧
          timeLtB t v = true ∧
          ∀ e2 ∈ tbl, ∀ v2, e2.departure_time_obj = some v2 →
            timeLtB t v2 = true → timeLeB v v2 = true) := by
  constructor
  · rw [firstDepartureAfter_eq_none_iff]
    constructor
    · intro hf e he v hv
      have h1 := hf e he
      rw [hv] at h1
      simpa [optTimeGt] using h1
    · intro hf e he
      cases hv : e.departure_time_obj with
      | none => simp [optTimeGt]
      | some v =>
        have := hf e he v hv
        simpa [optTimeGt] using this
  · intro s hs
    obtain ⟨e, he, hes, hgt, hmin⟩ := firstDepartureAfter_some_min hsort hs
    obtain ⟨v, hv⟩ := Option.isSome_iff_exists.mp (hall e he)
    refine ⟨e, he, hes, v, hv, ?_, ?_⟩
    · rw [hv] at hgt
      simpa [optTimeGt] using hgt
    · intro e2 he2 v2 hv2 ht2
      have h2 : optTimeGt e2.departure_time_obj t = true := by
        rw [hv2]
        simpa [optTimeGt] using ht2
      have h3 := hmin e2 he2 h2
      simpa [entryLeB, hv, hv2] using h3

/-- Witness for C1 on the spec's example timetable 06:00, 06:30, 07:00 with a
boarding time exactly at the 06:00 departure. -/
theorem C1_witness :
    ((⟨6, 0, 0⟩ : Time).hour ≤ 23 ∧ (⟨6, 0, 0⟩ : Time).minute ≤ 59 ∧
      (⟨6, 0, 0⟩ : Time).second ≤ 59)
    ∧ (∀ e ∈ build_timetable ["06:00", "06:30", "07:00"],
        e.departure_time_obj.isSome = true)
    ∧ (build_timetable ["06:00", "06:30", "07:00"]).Pairwise
        (fun a b => entryLeB a b = true)
    ∧ ((firstDepartureAfter (build_timetable ["06:00", "06:30", "07:00"]) ⟨6, 0, 0⟩ = none ↔
        ∀ e ∈ build_timetable ["06:00", "06:30", "07:00"], ∀ v,
          e.departure_time_obj = some v → timeLtB ⟨6, 0, 0⟩ v = false)
      ∧ (∀ s, firstDepartureAfter (build_timetable ["06:00", "06:30", "07:00"]) ⟨6, 0, 0⟩ =
            some s →
          ∃ e ∈ build_timetable ["06:00", "06:30", "07:00"], e.departure_time = s ∧
            ∃ v, e.departure_time_obj = some v ∧ timeLtB ⟨6, 0, 0⟩ v = true ∧
              ∀ e2 ∈ build_timetable ["06:00", "06:30", "07:00"], ∀ v2,
                e2.departure_time_obj = some v2 → timeLtB ⟨6, 0, 0⟩ v2 = true →
                  timeLeB v v2 = true)) :=
  ⟨by decide, by decide, by decide,
    C1_successor_query (build_timetable ["06:00", "06:30", "07:00"]) ⟨6, 0, 0⟩
      (by decide) (by decide) (by decide)⟩

/-- C2: the matcher returns absence for an absent boarding time no matter what
the date, timetables or holiday calendar are (no classification or lookup can
influence the result), and for a present boarding time its result equals the
successor query on the timetable selected by classifying the entry date
(weekday timetable when the date is a weekday, weekend timetable otherwise). -/
theorem C2_matcher_delegates (p_date_str : String) (wk we : List TEntry)
    (hol : Date → Bool) :
    (∀ wk2 we2 : List TEntry, ∀ hol2 : Date → Bool,
      find_closest_train_time p_date_str none wk2 we2 hol2 = none)
    ∧ ∀ t, find_closest_train_time p_date_str (some t) wk we hol =
        firstDepartureAfter (if is_weekday_jp hol p_date_str then wk else we) t := by
  refine ⟨fun _ _ _ => rfl, fun t => ?_⟩
  unfold find_closest_train_time firstDepartureAfter
  rfl

/-- C3: `is_weekday_jp` returns true exactly when the date string parses and
its day of week is neither Saturday (5) nor Sunday (6) and the date is not in
the national holiday set; an unparseable date string yields false (fails
closed), and the function is total (never raises). -/
theorem C3_is_weekday_jp_spec (hol : Date → Bool) (s : String) :
    (∀ d, parse_date_str s = some d →
      (is_weekday_jp hol s = true ↔ weekday d ≠ 5 ∧ weekday d ≠ 6 ∧ hol d = false))
    ∧ (parse_date_str s = none → is_weekday_jp hol s = false) := by
  constructor
  · intro d hd
    unfold is_weekday_jp
    rw [hd]
    have hw : weekday d < 7 := Nat.mod_lt _ (by omega)
    cases hhol : hol d <;>
      simp [hhol, Bool.and_eq_true, Bool.not_eq_true', decide_eq_false_iff_not] <;>
      omega
  · intro hd
    unfold is_weekday_jp
    rw [hd]

/-- Witness for C3: 2025-10-12 parses and is a Sunday, so it is not a weekday
even under an empty holiday set; an unparseable string also yields false. -/
theorem C3_witness :
    is_weekday_jp (fun _ => false) "2025-10-12" = false
    ∧ is_weekday_jp (fun _ => false) "12 Oct 2025" = false := by
  constructor
  · have h := (C3_is_weekday_jp_spec (fun _ => false) "2025-10-12").1
      ⟨2025, 10, 12⟩ (by decide)
    rw [Bool.eq_false_iff]
    intro hc
    exact (h.mp hc).2.1 (by decide)
  · exact (C3_is_weekday_jp_spec (fun _ => false) "12 Oct 2025").2 (by decide)

/-- C4: `parse_time_str` succeeds on a string exactly when the string splits
at its colons into two or three components (colon count 1 or 2), each a one-
or two-digit numeric component, with hour at most 23 and minute/second at most
59; in particular the empty string, 25:00, 12:60, 12-30 and 1:2:3:4 yield
absence, as does a missing (NaN) cell, and the function is total (never
raises). -/
theorem C4_parse_time_shape (s : String) :
    ((parse_time_str s).isSome = true ↔ GoodTimeShape s)
    ∧ parse_time_str "" = none ∧ parse_time_str "25:00" = none
    ∧ parse_time_str "12:60" = none ∧ parse_time_str "12-30" = none
    ∧ parse_time_str "1:2:3:4" = none ∧ parse_time_cell none = none :=
  ⟨parse_time_str_isSome_iff, by decide, by decide, by decide, by decide, by decide, rfl⟩

/-- Witness for C4: the characterization evaluated at a well-formed and at a
malformed concrete string. -/
theorem C4_witness :
    ((parse_time_str "06:30").isSome = true ↔ GoodTimeShape "06:30")
    ∧ parse_time_str "25:00" = none :=
  ⟨(C4_parse_time_shape "06:30").1, (C4_parse_time_shape "25:00").2.2.1⟩

/-- C5: `count_period_days` returns 0 when no date parses (in particular on
empty input); otherwise it takes the minimum and maximum over the parseable
dates (unparseable entries ignored by the filterMap), iterates day by day over
the whole closed calendar interval (the i-th visited day has ordinal
min + i, for every i up to the span), classifies each day with
`is_weekday_jp`, and counts the days whose classification equals the target —
all calendar days in the span, not only days present in the data. -/
theorem C5_count_period_days (dates : List String) (tgt : Bool) (hol : Date → Bool) :
    ((uniqFirst dates).filterMap parse_date_str = [] →
      count_period_days dates tgt hol = 0)
    ∧ ∀ d0 rest, (uniqFirst dates).filterMap parse_date_str = d0 :: rest →
        (listMinD d0 rest ∈ d0 :: rest ∧
          ∀ x ∈ d0 :: rest, dateLeB (listMinD d0 rest) x = true)
        ∧ (listMaxD d0 rest ∈ d0 :: rest ∧
          ∀ x ∈ d0 :: rest, dateLeB x (listMaxD d0 rest) = true)
        ∧ (∀ i, i < toRataDie (listMaxD d0 rest) + 1 - toRataDie (listMinD d0 rest) →
            toRataDie (nextDate^[i] (listMinD d0 rest)) = toRataDie (listMinD d0 rest) + i)
        ∧ count_period_days dates tgt hol =
            (List.range (toRataDie (listMaxD d0 rest) + 1 -
              toRataDie (listMinD d0 rest))).countP
              (fun i => is_weekday_jp hol (formatDate (nextDate^[i] (listMinD d0 rest)))
                == tgt) := by
  refine ⟨fun h => count_period_days_no_valid h, fun d0 rest h => ?_⟩
  have hvalid : ∀ x ∈ d0 :: rest, ValidDate x := by
    intro x hx
    rw [← h] at hx
    obtain ⟨s2, _, hs2⟩ := List.mem_filterMap.mp hx
    exact parse_date_str_valid hs2
  exact ⟨⟨listMinD_mem d0 rest, listMinD_le d0 rest⟩,
    ⟨listMaxD_mem d0 rest, listMaxD_ge d0 rest⟩,
    fun i _ => iterate_nextDate_toRataDie (hvalid _ (listMinD_mem d0 rest)) i,
    count_period_days_spec h⟩

/-- Witness for C5: the week 2025-10-06 (Monday) to 2025-10-12 (Sunday). -/
theorem C5_witness :
    count_period_days ["2025-10-06", "2025-10-12"] true (fun _ => false) =
      (List.range (toRataDie (listMaxD ⟨2025, 10, 6⟩ [⟨2025, 10, 12⟩]) + 1 -
        toRataDie (listMinD ⟨2025, 10, 6⟩ [⟨2025, 10, 12⟩]))).countP
        (fun i => is_weekday_jp (fun _ => false)
          (formatDate (nextDate^[i] (listMinD ⟨2025, 10, 6⟩ [⟨2025, 10, 12⟩]))) == true) :=
  ((C5_count_period_days ["2025-10-06", "2025-10-12"] true (fun _ => false)).2
    ⟨2025, 10, 6⟩ [⟨2025, 10, 12⟩] (by decide)).2.2.2

/-- C10: when at least one date parses, the weekday count and the non-weekday
count over the same date set sum to the total number of calendar days in the
closed interval from the minimum to the maximum parsed date, because each day
is classified into exactly one of the two classes. -/
theorem C10_weekday_partition (dates : List String) (hol : Date → Bool) :
    ∀ d0 rest, (uniqFirst dates).filterMap parse_date_str = d0 :: rest →
      count_period_days dates true hol + count_period_days dates false hol =
        toRataDie (listMaxD d0 rest) + 1 - toRataDie (listMinD d0 rest) := by
  intro d0 rest h
  rw [count_period_days_spec h, count_period_days_spec h]
  have hsplit : ∀ (l : List Nat) (f : Nat → Bool),
      l.countP (fun i => f i == true) + l.countP (fun i => f i == false) = l.length := by
    intro l f
    have h2 := countP_partition l (fun i => f i == true)
    have h3 : (fun i => !(f i == true)) = (fun i => f i == false) := by
      funext i
      cases f i <;> rfl
    rw [h3] at h2
    exact h2
  have h4 := hsplit
    (List.range (toRataDie (listMaxD d0 rest) + 1 - toRataDie (listMinD d0 rest)))
    (fun i => is_weekday_jp hol (formatDate (nextDate^[i] (listMinD d0 rest))))
  rw [List.length_range] at h4
  exact h4

/-- Witness for C10: 5 weekdays plus 2 weekend days over the 7-day window
2025-10-06 to 2025-10-12. -/
theorem C10_witness :
    count_period_days ["2025-10-06", "2025-10-12"] true (fun _ => false) +
      count_period_days ["2025-10-06", "2025-10-12"] false (fun _ => false) =
      toRataDie (listMaxD ⟨2025, 10, 6⟩ [⟨2025, 10, 12⟩]) + 1 -
        toRataDie (listMinD ⟨2025, 10, 6⟩ [⟨2025, 10, 12⟩]) :=
  C10_weekday_partition ["2025-10-06", "2025-10-12"] (fun _ => false)
    ⟨2025, 10, 6⟩ [⟨2025, 10, 12⟩] (by decide)

/-- C6 counterexample: the two matched events "06:30" and "06:30:00" denote
the same time of day, yet the aggregator emits two rows of total 1 each (a
group per distinct string) instead of one row of total 2, so the grouping key
is the departure-time text, not the TimeOfDay value. -/
theorem C6_counterexample :
    parse_time_str "06:30" = parse_time_str "06:30:00"
    ∧ (aggregate ["06:30", "06:30:00"] 1).length = 2
    ∧ (aggregate ["06:30", "06:30:00"] 1).map
        (fun r => r.passenger_count_total) = [1, 1] := by
  refine ⟨by decide, by decide, by decide⟩

/-- C6 (amended): over the matched events (absent assignments dropped) the
aggregator groups by exact departure-time string equality — one row per
distinct matched string, whose total is the number of matched events carrying
that exact string, whose average is total divided by the period day count —
unmatched events contribute to no row, and the rows are sorted ascending by
the parsed time of day.  This coincides with grouping by TimeOfDay whenever
all matched strings use one textual format. -/
theorem C6_aggregator (events : List (Option String)) (num_days : Nat)
    (hdays : 0 < num_days)
    (hparse : ∀ s ∈ events.filterMap id, (parse_time_str s).isSome = true) :
    (∀ r ∈ aggregate (events.filterMap id) num_days,
      r.train_time ∈ events.filterMap id ∧
        r.passenger_count_total = (events.filterMap id).count r.train_time ∧
        r.passenger_count_avg_per_day = (r.passenger_count_total : ℚ) / (num_days : ℚ))
    ∧ (∀ s ∈ events.filterMap id,
        ∃ r ∈ aggregate (events.filterMap id) num_days, r.train_time = s)
    ∧ ((aggregate (events.filterMap id) num_days).map (fun r => r.train_time)).Nodup
    ∧ (aggregate (events.filterMap id) num_days).Pairwise
        (fun a b => ∀ va vb, parse_time_str a.train_time = some va →
          parse_time_str b.train_time = some vb → timeLeB va vb = true) := by
  refine ⟨?_, ?_, aggregate_keys_nodup _ _, ?_⟩
  · intro r hr
    obtain ⟨h1, h2, h3⟩ := mem_aggregate hr
    exact ⟨h1, h2, by rw [h3, h2]⟩
  · intro s hs
    exact aggregate_covers hs
  · refine List.Pairwise.imp ?_ (aggregate_sorted (events.filterMap id) num_days)
    intro a b hab va vb hva hvb
    simpa [rowLeB, hva, hvb] using hab

/-- Witness for C6 on the spec's end-to-end example: three events matched to
08:10 and one unmatched event, over one period day, give the single row
(08:10, total 3, average 3). -/
theorem C6_witness :
    ((⟨"08:10",
      ([some "08:10", some "08:10", some "08:10", none].filterMap id).count "08:10",
      (([some "08:10", some "08:10", some "08:10", none].filterMap id).count "08:10" : ℚ) /
        ((1 : Nat) : ℚ)⟩ : AggRow).train_time ∈
        ([some "08:10", some "08:10", some "08:10", none].filterMap id))
    ∧ ((⟨"08:10",
      ([some "08:10", some "08:10", some "08:10", none].filterMap id).count "08:10",
      (([some "08:10", some "08:10", some "08:10", none].filterMap id).count "08:10" : ℚ) /
        ((1 : Nat) : ℚ)⟩ : AggRow).passenger_count_total =
      ([some "08:10", some "08:10", some "08:10", none].filterMap id).count
        ((⟨"08:10",
          ([some "08:10", some "08:10", some "08:10", none].filterMap id).count "08:10",
          (([some "08:10", some "08:10", some "08:10", none].filterMap id).count "08:10" : ℚ) /
            ((1 : Nat) : ℚ)⟩ : AggRow).train_time))
    ∧ ((⟨"08:10",
      ([some "08:10", some "08:10", some "08:10", none].filterMap id).count "08:10",
      (([some "08:10", some "08:10", some "08:10", none].filterMap id).count "08:10" : ℚ) /
        ((1 : Nat) : ℚ)⟩ : AggRow).passenger_count_avg_per_day =
      (((⟨"08:10",
        ([some "08:10", some "08:10", some "08:10", none].filterMap id).count "08:10",
        (([some "08:10", some "08:10", some "08:10", none].filterMap id).count "08:10" : ℚ) /
          ((1 : Nat) : ℚ)⟩ : AggRow).passenger_count_total : ℚ) / ((1 : Nat) : ℚ))) := by
  have hr : (⟨"08:10",
      ([some "08:10", some "08:10", some "08:10", none].filterMap id).count "08:10",
      (([some "08:10", some "08:10", some "08:10", none].filterMap id).count "08:10" : ℚ) /
        ((1 : Nat) : ℚ)⟩ : AggRow) ∈
      aggregate ([some "08:10", some "08:10", some "08:10", none].filterMap id) 1 := by
    unfold aggregate
    rw [mem_sortByB]
    exact List.mem_map.mpr ⟨"08:10", by decide, rfl⟩
  exact (C6_aggregator [some "08:10", some "08:10", some "08:10", none] 1
    (by decide) (by decide)).1 _ hr

/-- C7 counterexample: building the timetable index from a parseable and an
unparseable departure-time string keeps the unparseable entry: it occupies the
last position of the sorted sequence instead of being dropped before
sorting. -/
theorem C7_counterexample :
    build_timetable ["06:00", "xx"] =
      [⟨"06:00", some ⟨6, 0, 0⟩⟩, ⟨"xx", none⟩] := by decide

/-- C7 (amended): entries with an unparseable departure time are not dropped
by the build; the sort places every such entry after all parsed entries
(missing keys last), and since an absent value never satisfies the
strictly-greater filter, removing those entries would not change any successor
query result. -/
theorem C7_absent_entries (rows : List String) (t : Time) :
    (build_timetable rows).Pairwise
      (fun a b => a.departure_time_obj = none → b.departure_time_obj = none)
    ∧ firstDepartureAfter (build_timetable rows) t =
        firstDepartureAfter ((build_timetable rows).filter
          (fun e => e.departure_time_obj.isSome)) t := by
  constructor
  · unfold build_timetable
    refine List.Pairwise.imp ?_
      (pairwise_sortByB entryLeB_total entryLeB_trans
        (rows.map (fun s => ⟨s, parse_time_str s⟩)))
    intro a b hab hnone
    cases hb : b.departure_time_obj with
    | none => rfl
    | some v =>
      rw [show entryLeB a b = false from by simp [entryLeB, hnone, hb]] at hab
      exact absurd hab (by simp)
  · exact firstDepartureAfter_drop_none _ t

/-- Witness for C7 (amended) at a concrete timetable and boarding time. -/
theorem C7_witness :
    (build_timetable ["06:00", "xx"]).Pairwise
      (fun a b => a.departure_time_obj = none → b.departure_time_obj = none)
    ∧ firstDepartureAfter (build_timetable ["06:00", "xx"]) ⟨5, 0, 0⟩ =
        firstDepartureAfter ((build_timetable ["06:00", "xx"]).filter
          (fun e => e.departure_time_obj.isSome)) ⟨5, 0, 0⟩ :=
  C7_absent_entries ["06:00", "xx"] ⟨5, 0, 0⟩

/-- C8: when the aggregation runs on a nonempty valid subset whose period day
count is zero, the function returns the distinguished cannot-compute-average
outcome and emits no aggregate rows; rows are only ever emitted when the day
count is nonzero, and every emitted row has a positive total and a positive
average equal to total divided by that nonzero day count — never a literal 0
born of a zero denominator. -/
theorem C8_zero_period_days (df : List PRow) (tgt : Bool) (hol : Date → Bool) :
    ((df.filter (fun r => r.train_time.isSome)) ≠ [] →
      count_period_days ((df.filter (fun r => r.train_time.isSome)).map
        (fun r => r.data_date)) tgt hol = 0 →
      process_and_plot_traffic df tgt hol = TrafficResult.zeroPeriodDays)
    ∧ ∀ rs, process_and_plot_traffic df tgt hol = TrafficResult.rows rs →
        count_period_days ((df.filter (fun r => r.train_time.isSome)).map
          (fun r => r.data_date)) tgt hol ≠ 0 ∧
        ∀ r ∈ rs, 0 < r.passenger_count_total ∧
          r.passenger_count_avg_per_day = (r.passenger_count_total : ℚ) /
            ((count_period_days ((df.filter (fun r => r.train_time.isSome)).map
              (fun r => r.data_date)) tgt hol : Nat) : ℚ) ∧
          0 < r.passenger_count_avg_per_day := by
  constructor
  · intro hne hzero
    unfold process_and_plot_traffic
    dsimp only
    rw [if_neg (by simpa [List.isEmpty_iff] using hne), if_pos hzero]
  · intro rs hrs
    unfold process_and_plot_traffic at hrs
    dsimp only at hrs
    by_cases hempty : (df.filter (fun r => r.train_time.isSome)).isEmpty = true
    · rw [if_pos hempty] at hrs
      exact absurd hrs (by simp)
    · rw [if_neg hempty] at hrs
      by_cases hzero : count_period_days ((df.filter (fun r => r.train_time.isSome)).map
          (fun r => r.data_date)) tgt hol = 0
      · rw [if_pos hzero] at hrs
        exact absurd hrs (by simp)
      · rw [if_neg hzero] at hrs
        refine ⟨hzero, ?_⟩
        have hagg : aggregate ((df.filter (fun r => r.train_time.isSome)).filterMap
            (fun r => r.train_time))
            (count_period_days ((df.filter (fun r => r.train_time.isSome)).map
              (fun r => r.data_date)) tgt hol) = rs := by
          injection hrs
        subst hagg
        intro r hr
        obtain ⟨h1, h2, h3⟩ := mem_aggregate hr
        have hcount : 0 < ((df.filter (fun r => r.train_time.isSome)).filterMap
            (fun r => r.train_time)).count r.train_time :=
          List.count_pos_iff.mpr h1
        refine ⟨by omega, by rw [h3, h2], ?_⟩
        rw [h3]
        apply div_pos
        · exact_mod_cast hcount
        · exact_mod_cast Nat.pos_of_ne_zero hzero

/-- Witness for C8: one event on a Friday aggregated against the weekend
target has a period day count of 0 and yields the explicit
cannot-compute-average outcome. -/
theorem C8_witness :
    process_and_plot_traffic [⟨"2025-10-10", some "08:10"⟩] false (fun _ => false) =
      TrafficResult.zeroPeriodDays :=
  (C8_zero_period_days [⟨"2025-10-10", some "08:10"⟩] false (fun _ => false)).1
    (by decide) (by decide)

/-- C9: the two accepted granularities normalize to one comparable value: for
any in-range hour and minute the canonical HH:MM string and the HH:MM:SS
string with zero seconds parse to the same time value, and formatting that
value reproduces the canonical HH:MM:SS form (the round-trip
format(parse(s)) = normalize(s)). -/
theorem C9_granularity (h m : Nat) (hh : h ≤ 23) (hm : m ≤ 59) :
    parse_time_str (fmt2 h ++ ":" ++ fmt2 m) = some ⟨h, m, 0⟩
    ∧ parse_time_str (fmt2 h ++ ":" ++ fmt2 m ++ ":00") = some ⟨h, m, 0⟩
    ∧ formatTime ⟨h, m, 0⟩ = fmt2 h ++ ":" ++ fmt2 m ++ ":00" :=
  ⟨parse_time_str_fmt2_pair hh hm, parse_time_str_fmt2_triple hh hm, formatTime_fmt h m⟩

/-- Witness for C9 at 06:30. -/
theorem C9_witness :
    parse_time_str (fmt2 6 ++ ":" ++ fmt2 30) = some ⟨6, 30, 0⟩
    ∧ parse_time_str (fmt2 6 ++ ":" ++ fmt2 30 ++ ":00") = some ⟨6, 30, 0⟩
    ∧ formatTime ⟨6, 30, 0⟩ = fmt2 6 ++ ":" ++ fmt2 30 ++ ":00" :=
  C9_granularity 6 30 (by decide) (by decide)

end AnalysisSudo
